import Mathlib

/-!
Shallow embedding of the scheduling core of the `Kappibw/scheduling` repository:
the MILP assignment-model builders (`src/algorithms/milp/milp_scheduler.py` and
`src/algorithms/milp/simple_milp_scheduler.py`), the solution decoder, the time
horizon estimator, the schedule validator (`src/algorithms/base.py`) and the
incremental feasibility checker (`src/algorithms/endurance_base_scheduler.py`).

Python `datetime`/`timedelta` values are modelled as rationals: durations in
seconds, calendar timestamps as minutes counted from the scheduling reference
time (`datetime.now()` at decode), matching the code's
`datetime.now() + timedelta(minutes=start_slot)` arithmetic.  Python `int()`
truncation is modelled explicitly by `pyInt`.  The external MILP solver is an
opaque parameter supplying solved variable values, exactly the role it plays in
the source.
-/

namespace Scheduling

/-- Resource kinds, from `src/common/resources` (the module itself is not part
of the core sources; the enumeration is modelled from the spec's data model:
agent/"robot", tool, integer-capacity, cumulative-rate). Only `robot` is
inspected by the schedulers. -/
inductive ResourceType where
  | robot
  | tool
  | integer
  | cumulative_rate
deriving DecidableEq, Repr

/-- A task record as consumed by the MILP schedulers: identifier, duration
(seconds, a `timedelta` in the source), priority and dependency ids.  Modelled
from the spec: the `Task` dataclass lives in `src/common/tasks`, outside the
core sources; fields are those read by the scheduler code. -/
structure Task where
  id : String
  durationSec : ℚ
  priority : Int
  dependencies : List String
deriving DecidableEq, Repr

/-- A resource record as consumed by the MILP schedulers.  Modelled from the
spec: the `Resource` dataclass lives in `src/common/resources`; fields are
those read by the scheduler code. -/
structure Resource where
  id : String
  resource_type : ResourceType
  capacity : ℚ
deriving DecidableEq, Repr

/-- Status of a scheduling operation (`ScheduleStatus` in
`src/algorithms/base.py`). -/
inductive ScheduleStatus where
  | success
  | failed
  | partialSchedule
  | timeout
deriving DecidableEq, Repr

/-- One decoded scheduled-task record, the dict built by
`_extract_ortools_solution` (task id, robot id, start/end timestamps in
minutes from the reference time, priority, resource-consumption map). -/
structure SchedTask where
  task_id : String
  robot_id : String
  start_time : ℚ
  end_time : ℚ
  priority : Int
  resources : List (String × ℚ)
deriving DecidableEq, Repr

/-- Result of a scheduling operation (`ScheduleResult` in
`src/algorithms/base.py`). -/
structure ScheduleResult where
  status : ScheduleStatus
  schedule : List SchedTask
  objective_value : Option ℚ := none
  solve_time : Option ℚ := none
  message : Option String := none
deriving Repr

/-- Python `int()` applied to a rational: truncation toward zero. -/
def pyInt (q : ℚ) : ℤ :=
  if q < 0 then ⌈q⌉ else ⌊q⌋

/-- A task's duration converted to whole minutes, the
`int(task.duration.total_seconds() / 60)` idiom used throughout both
schedulers. -/
def durMinutes (t : Task) : ℤ :=
  pyInt (t.durationSec / 60)

/-- Python `range(a, b)` over integers. -/
def intRange (a b : ℤ) : List ℤ :=
  (List.range (b - a).toNat).map (fun k => a + k)

/-- `_calculate_time_horizon` (identical in both schedulers): sum all task
durations in seconds, take `int(total * 1.5 / 60)` and floor the result at
100 minutes. -/
def calculate_time_horizon (tasks : List Task) : ℤ :=
  let total_duration : ℚ := (tasks.map (fun t => t.durationSec)).sum
  let time_horizon : ℤ := pyInt (total_duration * (3 / 2) / 60)
  max time_horizon 100

/-- The time horizon as the natural number of slots actually iterated over
by the model-building loops. -/
def timeHorizonNat (tasks : List Task) : ℕ :=
  (calculate_time_horizon tasks).toNat

/-- Decision variables of the assignment model: `x[i,j,t]`, `y[i]`, `z[i]`
and `makespan`, exactly the variables created by both model builders. -/
inductive ModelVar where
  | x (i j t : ℕ)
  | y (i : ℕ)
  | z (i : ℕ)
  | makespan
deriving DecidableEq, Repr

/-- A linear expression over model variables: a list of coefficient/variable
terms plus a constant (the shape of the cvxpy expressions built by
`MILPScheduler._create_milp_model`). -/
structure LinExpr where
  terms : List (ℚ × ModelVar)
  const : ℚ
deriving DecidableEq, Repr

/-- Comparison operator of a cvxpy constraint. -/
inductive Rel where
  | le
  | ge
  | eq
deriving DecidableEq, Repr

/-- One cvxpy constraint `lhs rel rhs` as appended to `constraints_list` by
`MILPScheduler._create_milp_model`. -/
structure CvxConstraint where
  lhs : LinExpr
  rel : Rel
  rhs : LinExpr
deriving DecidableEq, Repr

/-- `sum(x[i,j,t] for j in range(m)) <= 1` (milp_scheduler.py line 117). -/
def singleAssignCon (m i t : ℕ) : CvxConstraint :=
  ⟨⟨(List.range m).map (fun j => (1, ModelVar.x i j t)), 0⟩, Rel.le, ⟨[], 1⟩⟩

/-- `z[i] == y[i] + duration` (milp_scheduler.py line 123). -/
def durationCon (i : ℕ) (d : ℤ) : CvxConstraint :=
  ⟨⟨[(1, ModelVar.z i)], 0⟩, Rel.eq, ⟨[(1, ModelVar.y i)], d⟩⟩

/-- `sum(x[i,j,t] for i in range(n)) <= robot.capacity` (milp_scheduler.py
line 132). -/
def capacityCon (n j t : ℕ) (c : ℚ) : CvxConstraint :=
  ⟨⟨(List.range n).map (fun i => (1, ModelVar.x i j t)), 0⟩, Rel.le, ⟨[], c⟩⟩

/-- `z[i] <= makespan` (milp_scheduler.py line 137). -/
def makespanCon (i : ℕ) : CvxConstraint :=
  ⟨⟨[(1, ModelVar.z i)], 0⟩, Rel.le, ⟨[(1, ModelVar.makespan)], 0⟩⟩

/-- `y[i] >= z[dep_index]` (milp_scheduler.py line 145). -/
def depCon (i k : ℕ) : CvxConstraint :=
  ⟨⟨[(1, ModelVar.y i)], 0⟩, Rel.ge, ⟨[(1, ModelVar.z k)], 0⟩⟩

/-- `y[i] <= y[j]` for a higher-priority task `i` (milp_scheduler.py
line 153). -/
def prioCon (i j : ℕ) : CvxConstraint :=
  ⟨⟨[(1, ModelVar.y i)], 0⟩, Rel.le, ⟨[(1, ModelVar.y j)], 0⟩⟩

/-- `next((j for j, t in enumerate(tasks) if t.id == dep_id), None)`: index of
the first task with the given id. -/
def findTaskIndex (tasks : List Task) (depId : String) : Option ℕ :=
  tasks.findIdx? (fun t => t.id == depId)

/-- The `constraints_list` built by `MILPScheduler._create_milp_model`
(milp_scheduler.py lines 111-154), in generation order: single-assignment,
duration linkage, per-robot capacity, makespan bounds, dependencies, and the
pairwise priority-ordering constraints. -/
def create_milp_model_constraints (tasks : List Task) (robots : List Resource)
    (T : ℕ) : List CvxConstraint :=
  let n := tasks.length
  let m := robots.length
  ((List.range n).flatMap (fun i =>
      (List.range T).map (fun t => singleAssignCon m i t)))
  ++ (tasks.enum.map (fun p => durationCon p.1 (durMinutes p.2)))
  ++ (robots.enum.flatMap (fun rj =>
      (List.range T).map (fun t => capacityCon n rj.1 t rj.2.capacity)))
  ++ ((List.range n).map (fun i => makespanCon i))
  ++ (tasks.enum.flatMap (fun p =>
      p.2.dependencies.filterMap (fun depId =>
        (findTaskIndex tasks depId).map (fun k => depCon p.1 k))))
  ++ (tasks.enum.flatMap (fun p =>
      tasks.enum.filterMap (fun q =>
        if p.1 ≠ q.1 ∧ q.2.priority < p.2.priority
        then some (prioCon p.1 q.1) else none)))

/-- One OR-Tools constraint: lower bound, upper bound (`none` stands for
`solver.infinity()`), and the coefficients set by `SetCoefficient`, in the
shape used by `SimpleMILPScheduler.schedule`. -/
structure OrConstraint where
  lo : ℚ
  hi : Option ℚ
  coeffs : List (ModelVar × ℚ)
deriving DecidableEq, Repr

/-- `solver.Constraint(0, 1)` with coefficient 1 on `x[i,j,t]` for every
robot `j` (simple_milp_scheduler.py lines 95-97). -/
def orSingleCon (m i t : ℕ) : OrConstraint :=
  ⟨0, some 1, (List.range m).map (fun j => (ModelVar.x i j t, 1))⟩

/-- `solver.Constraint(duration, duration)` linking `z[i] - y[i]`
(simple_milp_scheduler.py lines 102-104). -/
def orDurationCon (i : ℕ) (d : ℤ) : OrConstraint :=
  ⟨d, some d, [(ModelVar.z i, 1), (ModelVar.y i, -1)]⟩

/-- The window `range(max(0, t - duration + 1), min(time_horizon, t + 1))` of
start slots during which a task started there still occupies slot `t`
(simple_milp_scheduler.py line 112). -/
def capWindow (T t : ℕ) (d : ℤ) : List ℤ :=
  intRange (max 0 ((t : ℤ) - d + 1)) (min (T : ℤ) ((t : ℤ) + 1))

/-- `solver.Constraint(0, robot.capacity)` over the occupancy window of every
task (simple_milp_scheduler.py lines 109-114). -/
def orCapacityCon (tasks : List Task) (j T t : ℕ) (c : ℚ) : OrConstraint :=
  ⟨0, some c,
    tasks.enum.flatMap (fun p =>
      (capWindow T t (durMinutes p.2)).map
        (fun st => (ModelVar.x p.1 j st.toNat, (1 : ℚ))))⟩

/-- `solver.Constraint(0, infinity)` encoding `z[i] - makespan >= 0`...
i.e. `z[i] <= makespan` (simple_milp_scheduler.py lines 118-120). -/
def orMakespanCon (i : ℕ) : OrConstraint :=
  ⟨0, none, [(ModelVar.z i, 1), (ModelVar.makespan, -1)]⟩

/-- `solver.Constraint(0, infinity)` encoding `y[i] >= z[dep]`
(simple_milp_scheduler.py lines 127-129). -/
def orDepCon (i k : ℕ) : OrConstraint :=
  ⟨0, none, [(ModelVar.y i, 1), (ModelVar.z k, -1)]⟩

/-- The single-assignment block of `SimpleMILPScheduler.schedule`
(simple_milp_scheduler.py lines 92-97): for each task `i` the slot index runs
over `range(time_horizon - duration + 1)` only. -/
def simpleSingleBlock (tasks : List Task) (m T : ℕ) : List OrConstraint :=
  tasks.enum.flatMap (fun p =>
    (List.range ((T : ℤ) - durMinutes p.2 + 1).toNat).map
      (fun t => orSingleCon m p.1 t))

/-- All constraints created by `SimpleMILPScheduler.schedule`
(simple_milp_scheduler.py lines 90-129), in generation order.  Faithful to
the source whenever every task's whole-minute duration is at least 1 (with a
zero or negative duration the source instead dies on a `KeyError` looking up
`x[i, j, time_horizon]`). -/
def simple_schedule_constraints (tasks : List Task) (robots : List Resource)
    (T : ℕ) : List OrConstraint :=
  simpleSingleBlock tasks robots.length T
  ++ (tasks.enum.map (fun p => orDurationCon p.1 (durMinutes p.2)))
  ++ (robots.enum.flatMap (fun rj =>
      (List.range T).map (fun t => orCapacityCon tasks rj.1 T t rj.2.capacity)))
  ++ ((List.range tasks.length).map (fun i => orMakespanCon i))
  ++ (tasks.enum.flatMap (fun p =>
      p.2.dependencies.filterMap (fun depId =>
        (findTaskIndex tasks depId).map (fun k => orDepCon p.1 k))))

/-- Does a constraint carry a coefficient on start variable `y i`? -/
def hasYVar (i : ℕ) (c : OrConstraint) : Bool :=
  c.coeffs.any (fun p => p.1 == ModelVar.y i)

/-- The scan of `_extract_ortools_solution` (simple_milp_scheduler.py lines
179-187): iterate robots in index order, inside each robot iterate slots in
order, stop at the first assignment variable whose solved value exceeds the
0.5 rounding threshold.  Returns the chosen (robot index, start slot). -/
def findAssignment (sol : ℕ → ℕ → ℕ → ℚ) (i m T : ℕ) : Option (ℕ × ℕ) :=
  (List.range m).findSome? (fun j =>
    ((List.range T).find? (fun t => decide ((1 : ℚ) / 2 < sol i j t))).map
      (fun t => (j, t)))

/-- `_extract_ortools_solution` (simple_milp_scheduler.py lines 168-204):
for each task find its assigned (robot, start slot) pair, then emit a
scheduled-task dict whose start is `now + start_slot` minutes and whose end
is start plus the task's own duration.  Tasks with no assignment are
omitted. -/
def extract_ortools_solution (sol : ℕ → ℕ → ℕ → ℚ) (tasks : List Task)
    (robots : List Resource) (T : ℕ) : List SchedTask :=
  tasks.enum.filterMap (fun p =>
    (findAssignment sol p.1 robots.length T).bind (fun jt =>
      (robots.get? jt.1).map (fun robot =>
        { task_id := p.2.id
          robot_id := robot.id
          start_time := (jt.2 : ℚ)
          end_time := (jt.2 : ℚ) + p.2.durationSec / 60
          priority := p.2.priority
          resources := [(robot.id, 1)] })))

/-- Outcome of the external OR-Tools solve: a status together with the solved
values of the assignment variables and of `makespan`. -/
structure SolverOutcome where
  solved : Bool
  xval : ℕ → ℕ → ℕ → ℚ
  makespanVal : ℚ

/-- `SimpleMILPScheduler.schedule` (simple_milp_scheduler.py lines 21-166)
with the external solver abstracted as a function from the built constraint
list to a `SolverOutcome` (`solved` covers the `OPTIMAL`/`FEASIBLE`
statuses).  The guard clauses, horizon computation, model building, decode
and result construction follow the source. -/
def simple_schedule (solve : List OrConstraint → SolverOutcome)
    (tasks : List Task) (resources : List Resource) : ScheduleResult :=
  if tasks = [] ∨ resources = [] then
    { status := ScheduleStatus.failed, schedule := [],
      message := some "No tasks or resources provided" }
  else
    let robots := resources.filter (fun r => r.resource_type == ResourceType.robot)
    if robots = [] then
      { status := ScheduleStatus.failed, schedule := [],
        message := some "No robots available for scheduling" }
    else
      let T := timeHorizonNat tasks
      let outcome := solve (simple_schedule_constraints tasks robots T)
      if outcome.solved then
        let sched := extract_ortools_solution outcome.xval tasks robots T
        { status := ScheduleStatus.success, schedule := sched,
          objective_value := some outcome.makespanVal,
          message := some ("Schedule created with " ++ toString sched.length ++ " tasks") }
      else
        { status := ScheduleStatus.failed, schedule := [],
          message := some "Solver failed" }

/-- `MILPScheduler._extract_solution` (milp_scheduler.py lines 184-225): like
the OR-Tools decode but scanning `t in range(1000)` and testing membership of
`x_i_j_t` in the variable dict (present exactly for `t < T`). -/
def extract_solution (sol : ℕ → ℕ → ℕ → ℚ) (tasks : List Task)
    (robots : List Resource) (T : ℕ) : List SchedTask :=
  tasks.enum.filterMap (fun p =>
    ((List.range robots.length).findSome? (fun j =>
        ((List.range 1000).find? (fun t =>
            decide (t < T) && decide ((1 : ℚ) / 2 < sol p.1 j t))).map
          (fun t => (j, t)))).bind (fun jt =>
      (robots.get? jt.1).map (fun robot =>
        { task_id := p.2.id
          robot_id := robot.id
          start_time := (jt.2 : ℚ)
          end_time := (jt.2 : ℚ) + p.2.durationSec / 60
          priority := p.2.priority
          resources := [(robot.id, 1)] })))

/-- `MILPScheduler.schedule` (milp_scheduler.py lines 25-72) with the solver
abstracted to a valuation of the model's variables.  The `ValueError` raised
by `_create_milp_model` when no robot resource is present is caught by the
surrounding `except` and turned into a failed result, as in the source. -/
def milp_schedule (solve : List CvxConstraint → (ℕ → ℕ → ℕ → ℚ))
    (tasks : List Task) (resources : List Resource) : ScheduleResult :=
  if tasks = [] ∨ resources = [] then
    { status := ScheduleStatus.failed, schedule := [],
      message := some "No tasks or resources provided" }
  else
    let robots := resources.filter (fun r => r.resource_type == ResourceType.robot)
    if robots = [] then
      { status := ScheduleStatus.failed, schedule := [],
        message := some "Error in MILP scheduling: No robots available for scheduling" }
    else
      let T := timeHorizonNat tasks
      let sol := solve (create_milp_model_constraints tasks robots T)
      let sched := extract_solution sol tasks robots T
      { status := ScheduleStatus.success, schedule := sched,
        solve_time := some 0,
        message := some ("Schedule created with " ++ toString sched.length ++ " tasks") }

/-- One entry of the per-resource usage lists assembled by
`validate_schedule` (base.py lines 121-125): a start/end interval and the
consumed amount. -/
structure Usage where
  start : ℚ
  stop : ℚ
  amount : ℚ
deriving DecidableEq, Repr

/-- First-occurrence key order of a Python dict built by repeated insertion:
the resource ids in the order `validate_schedule` first meets them. -/
def dedupFirst (seen : List String) : List String → List String
  | [] => []
  | a :: rest =>
    if a ∈ seen then dedupFirst seen rest else a :: dedupFirst (a :: seen) rest

/-- The resource ids used by a schedule, in the dict order of
`resource_usage` (base.py lines 114-125). -/
def usedResourceIds (schedule : List SchedTask) : List String :=
  dedupFirst [] (schedule.flatMap (fun st => st.resources.map Prod.fst))

/-- The usage list collected for one resource id (base.py lines 116-125);
each scheduled task contributes at most one entry per resource id because
`scheduled_task.resources` is a dict. -/
def usagesFor (schedule : List SchedTask) (rid : String) : List Usage :=
  schedule.filterMap (fun st =>
    (st.resources.find? (fun p => p.1 == rid)).map
      (fun p => ⟨st.start_time, st.end_time, p.2⟩))

/-- Stable insertion into a list sorted by `start`, keeping earlier-arrived
entries first among equal starts, as Python's stable `list.sort` does. -/
def insertByStart (u : Usage) : List Usage → List Usage
  | [] => [u]
  | v :: rest =>
    if v.start ≤ u.start then v :: insertByStart u rest else u :: v :: rest

/-- `usage_list.sort(key=lambda x: x['start'])` (base.py line 130): a stable
sort by interval start. -/
def sortByStart (l : List Usage) : List Usage :=
  l.foldl (fun acc u => insertByStart u acc) []

/-- The adjacent-pair scan of `validate_schedule` (base.py lines 132-141):
`false` as soon as two consecutive entries overlap (`current end > next
start`), the resource id resolves through the manager, and the two amounts
together exceed its capacity. -/
def pairsOk (lookup : String → Option Resource) (rid : String) :
    List Usage → Bool
  | [] => true
  | [_] => true
  | u :: v :: rest =>
    (if v.start < u.stop then
      (match lookup rid with
       | some r => decide (u.amount + v.amount ≤ r.capacity)
       | none => true)
     else true) && pairsOk lookup rid (v :: rest)

/-- `BaseScheduler.validate_schedule` (base.py lines 103-143).  The resource
manager is abstracted as the partial lookup `resource_manager.get_resource`;
a `none`-returning lookup is a scheduler whose `resource_manager` is unset
or cannot resolve the id. -/
def validate_schedule (lookup : String → Option Resource)
    (schedule : List SchedTask) : Bool :=
  (usedResourceIds schedule).all (fun rid =>
    pairsOk lookup rid (sortByStart (usagesFor schedule rid)))

/-- The two task-constraint kinds handled by `check_task_constraints`
(`start_after_end` and `contained`). -/
inductive ConstraintType where
  | start_after_end
  | contained
deriving DecidableEq, Repr

/-- A typed task constraint (target task id plus kind).  Modelled from the
spec: the constraint dataclass lives in `src/common/tasks`, outside the core
sources; the fields are those read by `check_task_constraints`. -/
structure TaskConstraint where
  constraint_type : ConstraintType
  target_task_id : String
deriving DecidableEq, Repr

/-- A resource constraint of a variable-duration task.  Modelled from the
spec: the dataclass lives in `src/common/tasks`; fields are those read by
`check_resource_constraints`. -/
structure ResourceConstraint where
  resource_id : String
  min_amount : ℚ
  max_amount : ℚ
deriving DecidableEq, Repr

/-- A variable-duration task of the window-based scheduler variant.
Modelled from the spec: `EnduranceTask` lives in `src/common/tasks`, outside
the core sources; the fields are those read by `validate_inputs` and
`check_task_constraints` (timestamps and durations as rationals). -/
structure EnduranceTask where
  id : String
  start_time : ℚ
  end_time : ℚ
  min_duration : ℚ
  preferred_duration : ℚ
  max_duration : ℚ
  task_constraints : List TaskConstraint
  resource_constraints : List ResourceConstraint
deriving DecidableEq, Repr

/-- A resource of the window-based scheduler variant.  Modelled from the
spec: `EnduranceResource` lives in `src/common/resources`; the fields are
those read by `validate_inputs` and `check_resource_constraints`. -/
structure EnduranceResource where
  id : String
  resource_type : ResourceType
  max_capacity : Option ℚ
  initial_value : Option ℚ
  available_capacity : ℚ
deriving DecidableEq, Repr

/-- The error strings one task contributes to `validate_inputs`
(endurance_base_scheduler.py lines 67-87), in check order: window validity,
min/max duration ordering, preferred duration within bounds, max duration
within the window. -/
def taskInputErrors (task : EnduranceTask) : List String :=
  (if task.end_time ≤ task.start_time
   then ["Task " ++ task.id ++ " has invalid time window"] else [])
  ++ (if task.max_duration < task.min_duration
      then ["Task " ++ task.id ++ " has invalid duration constraints"] else [])
  ++ (if ¬(task.min_duration ≤ task.preferred_duration ∧
            task.preferred_duration ≤ task.max_duration)
      then ["Task " ++ task.id ++ " preferred duration out of bounds"] else [])
  ++ (if task.end_time - task.start_time < task.max_duration
      then ["Task " ++ task.id ++ " max duration exceeds time window"] else [])

/-- The error strings one resource contributes to `validate_inputs`
(endurance_base_scheduler.py lines 90-99). -/
def resourceInputErrors (r : EnduranceResource) : List String :=
  (if r.resource_type = ResourceType.integer ∧ r.max_capacity = none
   then ["Integer resource " ++ r.id ++ " missing max_capacity"] else [])
  ++ (if r.resource_type = ResourceType.cumulative_rate ∧ r.initial_value = none
      then ["Cumulative rate resource " ++ r.id ++ " missing initial_value"] else [])

/-- `EnduranceBaseScheduler.validate_inputs` (endurance_base_scheduler.py
lines 52-101): all violations of all checks accumulate into one error
list. -/
def validate_inputs (tasks : List EnduranceTask)
    (resources : List EnduranceResource) : List String :=
  (if tasks = [] then ["No tasks provided"] else [])
  ++ (if resources = [] then ["No resources provided"] else [])
  ++ tasks.flatMap taskInputErrors
  ++ resources.flatMap resourceInputErrors

/-- One already-scheduled entry, the dict consulted by
`check_task_constraints` (keys `task_id`, `start_time`, `end_time`). -/
structure SchedEntry where
  task_id : String
  start_time : ℚ
  end_time : ℚ
deriving DecidableEq, Repr

/-- The linear scan for the constraint's target among the scheduled entries
(endurance_base_scheduler.py lines 114-118 and 130-134): the first entry
whose `task_id` matches, if any. -/
def findTarget (scheduled : List SchedEntry) (tid : String) : Option SchedEntry :=
  scheduled.find? (fun s => s.task_id == tid)

/-- The errors one task constraint contributes to `check_task_constraints`
(endurance_base_scheduler.py lines 111-143): an unscheduled target or a
violated precedence/containment yields one named error string. -/
def constraintErrors (task : EnduranceTask) (scheduled : List SchedEntry)
    (c : TaskConstraint) : List String :=
  match c.constraint_type with
  | ConstraintType.start_after_end =>
    match findTarget scheduled c.target_task_id with
    | none =>
      ["Task " ++ task.id ++ " depends on unscheduled task " ++ c.target_task_id]
    | some tgt =>
      if task.start_time < tgt.end_time then
        ["Task " ++ task.id ++ " cannot start after task "
          ++ c.target_task_id ++ " ends"]
      else []
  | ConstraintType.contained =>
    match findTarget scheduled c.target_task_id with
    | none =>
      ["Task " ++ task.id ++ " depends on unscheduled task " ++ c.target_task_id]
    | some tgt =>
      if task.start_time < tgt.start_time ∨ tgt.end_time < task.end_time then
        ["Task " ++ task.id ++ " is not contained within task "
          ++ c.target_task_id]
      else []

/-- `EnduranceBaseScheduler.check_task_constraints`
(endurance_base_scheduler.py lines 103-145): the accumulated error list over
the candidate task's constraints, never an exception. -/
def check_task_constraints (task : EnduranceTask)
    (scheduled : List SchedEntry) : List String :=
  task.task_constraints.flatMap (constraintErrors task scheduled)

/-! ## Helper lemmas -/

theorem find?_eq_some_split {α : Type} {p : α → Bool} :
    ∀ {l : List α} {a : α}, l.find? p = some a →
      ∃ l1 l2, l = l1 ++ a :: l2 ∧ (∀ x ∈ l1, p x = false) ∧ p a = true := by
  intro l
  induction l with
  | nil => intro a h; simp at h
  | cons b l ih =>
    intro a h
    rw [List.find?_cons] at h
    by_cases hb : p b
    · simp [hb] at h
      exact ⟨[], l, by simp [h], by simp, h ▸ hb⟩
    · simp [hb] at h
      obtain ⟨l1, l2, hl, h1, h2⟩ := ih h
      exact ⟨b :: l1, l2, by simp [hl], by
        intro x hx
        rcases List.mem_cons.mp hx with rfl | hx
        · simpa using hb
        · exact h1 x hx, h2⟩

theorem findSome?_eq_some_split {α β : Type} {f : α → Option β} :
    ∀ {l : List α} {b : β}, l.findSome? f = some b →
      ∃ l1 a l2, l = l1 ++ a :: l2 ∧ (∀ x ∈ l1, f x = none) ∧ f a = some b := by
  intro l
  induction l with
  | nil => intro b h; simp at h
  | cons c l ih =>
    intro b h
    rw [List.findSome?_cons] at h
    cases hc : f c with
    | some v =>
      rw [hc] at h
      simp at h
      exact ⟨[], c, l, by simp, by simp, by rw [hc, h]⟩
    | none =>
      rw [hc] at h
      simp only [] at h
      obtain ⟨l1, a, l2, hl, h1, h2⟩ := ih h
      exact ⟨c :: l1, a, l2, by simp [hl], by
        intro x hx
        rcases List.mem_cons.mp hx with rfl | hx
        · exact hc
        · exact h1 x hx, h2⟩

/-- A prefix of `List.range T` before an element `t` is exactly `[0, ..., t)`. -/
theorem range_split_prefix {T t : ℕ} {l1 l2 : List ℕ}
    (h : List.range T = l1 ++ t :: l2) : t = l1.length ∧ ∀ t' < t, t' ∈ l1 := by
  have hlen : l1.length < T := by
    have := congrArg List.length h
    simp at this
    omega
  have hget : (List.range T)[l1.length]? = some t := by
    rw [h, List.getElem?_append_right (le_refl l1.length)]
    simp
  rw [List.getElem?_range hlen] at hget
  have ht : t = l1.length := by simpa using hget.symm
  refine ⟨ht, fun t' ht' => ?_⟩
  have htake : l1 = List.range t := by
    have h2 := congrArg (List.take l1.length) h
    rw [List.take_left, List.take_range] at h2
    rw [← h2, ht]
    congr 1
    omega
  rw [htake]
  exact List.mem_range.mpr ht'

/-- First-match characterization of `find?` over `List.range`. -/
theorem range_find?_eq_some {p : ℕ → Bool} {T t : ℕ}
    (h : (List.range T).find? p = some t) :
    p t = true ∧ t < T ∧ ∀ t' < t, p t' = false := by
  obtain ⟨l1, l2, hl, h1, h2⟩ := find?_eq_some_split h
  obtain ⟨ht, hmem⟩ := range_split_prefix hl
  refine ⟨h2, ?_, fun t' ht' => h1 t' (hmem t' ht')⟩
  have : t ∈ List.range T := by rw [hl]; simp
  exact List.mem_range.mp this

/-- First-match characterization of `findSome?` over `List.range`. -/
theorem range_findSome?_eq_some {β : Type} {f : ℕ → Option β} {m : ℕ} {b : β}
    (h : (List.range m).findSome? f = some b) :
    ∃ j < m, f j = some b ∧ ∀ j' < j, f j' = none := by
  obtain ⟨l1, a, l2, hl, h1, h2⟩ := findSome?_eq_some_split h
  obtain ⟨ha, hmem⟩ := range_split_prefix hl
  have : a ∈ List.range m := by rw [hl]; simp
  exact ⟨a, List.mem_range.mp this, h2, fun j' hj' => h1 j' (hmem j' hj')⟩

theorem hasYVar_true_iff {i : ℕ} {c : OrConstraint} :
    hasYVar i c = true ↔ ∃ q, (ModelVar.y i, q) ∈ c.coeffs := by
  simp only [hasYVar, List.any_eq_true, beq_iff_eq]
  constructor
  · rintro ⟨⟨v, q⟩, hm, hv⟩
    dsimp at hv
    subst hv
    exact ⟨q, hm⟩
  · rintro ⟨q, hm⟩
    exact ⟨(ModelVar.y i, q), hm, rfl⟩

/-- No constraint generated by `SimpleMILPScheduler.schedule` links the start
variables of two distinct tasks: the builder has no priority-ordering
constraints (its blocks touch at most one `y` variable each). -/
theorem simple_no_two_y {tasks : List Task} {robots : List Resource} {T : ℕ}
    {c : OrConstraint} (hc : c ∈ simple_schedule_constraints tasks robots T)
    {i j : ℕ} (hij : i ≠ j) :
    ¬(hasYVar i c = true ∧ hasYVar j c = true) := by
  rintro ⟨hi, hj⟩
  obtain ⟨qi, hqi⟩ := hasYVar_true_iff.mp hi
  obtain ⟨qj, hqj⟩ := hasYVar_true_iff.mp hj
  simp only [simple_schedule_constraints, List.mem_append] at hc
  rcases hc with ((((hc | hc) | hc) | hc) | hc)
  · simp only [simpleSingleBlock, List.mem_flatMap, List.mem_map] at hc
    obtain ⟨p, -, t, -, rfl⟩ := hc
    simp [orSingleCon] at hqi
  · simp only [List.mem_map] at hc
    obtain ⟨p, -, rfl⟩ := hc
    simp [orDurationCon] at hqi hqj
    exact hij (hqi.1.trans hqj.1.symm)
  · simp only [List.mem_flatMap, List.mem_map] at hc
    obtain ⟨rj, -, t, -, rfl⟩ := hc
    simp [orCapacityCon] at hqi
  · simp only [List.mem_map] at hc
    obtain ⟨k, -, rfl⟩ := hc
    simp [orMakespanCon] at hqi
  · simp only [List.mem_flatMap, List.mem_filterMap] at hc
    obtain ⟨p, -, depId, -, hk⟩ := hc
    cases hfi : findTaskIndex tasks depId with
    | none => rw [hfi] at hk; simp at hk
    | some k =>
      rw [hfi] at hk
      simp only [Option.map_some', Option.some.injEq] at hk
      rw [← hk] at hqi hqj
      simp [orDepCon] at hqi hqj
      exact hij (hqi.1.trans hqj.1.symm)

/-! ## Concrete fixtures used by witnesses and counterexamples -/

/-- A 2-minute task of priority 2 with no dependencies. -/
def exTask0 : Task := ⟨"t0", 120, 2, []⟩

/-- A 2-minute task of priority 1 with no dependencies. -/
def exTask1 : Task := ⟨"t1", 120, 1, []⟩

/-- A robot resource of capacity 2. -/
def exRobot : Resource := ⟨"r0", ResourceType.robot, 2⟩

/-! ## Claim theorems -/

/-- C1 (amended): `MILPScheduler._create_milp_model` adds the constraint
`y[i] <= y[j]` for every ordered pair of tasks with
`priority(i) > priority(j)`, imposing a total order of start slots by
priority rank; `SimpleMILPScheduler.schedule`, by contrast, adds no
priority-ordering constraint at all — none of its constraints even mentions
the start variables of two distinct tasks. -/
theorem priority_order_constraints :
    (∀ (tasks : List Task) (robots : List Resource) (T i j : ℕ) (ti tj : Task),
        tasks[i]? = some ti → tasks[j]? = some tj → i ≠ j →
        tj.priority < ti.priority →
        prioCon i j ∈ create_milp_model_constraints tasks robots T)
    ∧ (∀ (tasks : List Task) (robots : List Resource) (T : ℕ)
        (c : OrConstraint), c ∈ simple_schedule_constraints tasks robots T →
        ∀ i j : ℕ, i ≠ j → ¬(hasYVar i c = true ∧ hasYVar j c = true)) := by
  constructor
  · intro tasks robots T i j ti tj hi hj hij hprio
    simp only [create_milp_model_constraints, List.mem_append]
    refine Or.inr ?_
    simp only [List.mem_flatMap]
    refine ⟨(i, ti), List.mk_mem_enum_iff_getElem?.mpr hi, ?_⟩
    simp only [List.mem_filterMap]
    refine ⟨(j, tj), List.mk_mem_enum_iff_getElem?.mpr hj, ?_⟩
    rw [if_pos ⟨hij, hprio⟩]
  · intro tasks robots T c hc i j hij
    exact simple_no_two_y hc hij

/-- C1 (counterexample to the claim as stated): on two tasks of priorities
2 and 1 the claim asks `SimpleMILPScheduler`'s model to contain the
constraint `y[0] <= y[1]`; in fact no constraint of the model built by
`SimpleMILPScheduler.schedule` (at the horizon the scheduler itself
computes) mentions both start variables, so no priority-ordering constraint
is present. -/
theorem simple_has_no_priority_constraint :
    (simple_schedule_constraints [exTask0, exTask1] [exRobot]
        (timeHorizonNat [exTask0, exTask1])).all
      (fun c => !(hasYVar 0 c && hasYVar 1 c)) = true := by
  rw [List.all_eq_true]
  intro c hc
  have h := simple_no_two_y hc (i := 0) (j := 1) (by omega)
  cases h0 : hasYVar 0 c <;> cases h1 : hasYVar 1 c <;> simp_all

/-- `orSingleCon` determines its task index and slot when at least one robot
is present (the head coefficient names `x[i,0,t]`). -/
theorem orSingleCon_inj {m i t i' t' : ℕ} (hm : m ≠ 0)
    (h : orSingleCon m i t = orSingleCon m i' t') : i = i' ∧ t = t' := by
  obtain ⟨k, rfl⟩ : ∃ k, m = k + 1 := ⟨m - 1, by omega⟩
  simp [orSingleCon, List.range_succ_eq_map, OrConstraint.mk.injEq] at h
  exact ⟨h.1.1, h.1.2⟩

/-- Exact membership description of the single-assignment block of
`SimpleMILPScheduler.schedule`: the constraint for task `i` and slot `t`
occurs precisely when `t` stays within `time_horizon - duration`. -/
theorem orSingleCon_mem_simpleSingleBlock_iff {tasks : List Task} {m T i t : ℕ}
    (hm : m ≠ 0) :
    orSingleCon m i t ∈ simpleSingleBlock tasks m T ↔
      ∃ ti, tasks[i]? = some ti ∧ (t : ℤ) ≤ (T : ℤ) - durMinutes ti := by
  constructor
  · intro h
    simp only [simpleSingleBlock, List.mem_flatMap, List.mem_map] at h
    obtain ⟨p, hp, t2, ht2, heq⟩ := h
    obtain ⟨hi, ht⟩ := orSingleCon_inj hm heq
    rw [List.mem_enum_iff_getElem?] at hp
    refine ⟨p.2, hi ▸ hp, ?_⟩
    rw [List.mem_range, Int.lt_toNat] at ht2
    omega
  · rintro ⟨ti, hti, hle⟩
    simp only [simpleSingleBlock, List.mem_flatMap, List.mem_map]
    refine ⟨(i, ti), List.mk_mem_enum_iff_getElem?.mpr hti, t, ?_, rfl⟩
    show t ∈ List.range ((T : ℤ) - durMinutes ti + 1).toNat
    rw [List.mem_range, Int.lt_toNat]
    omega

/-- The scheduler-computed horizon of the two 2-minute fixture tasks is the
100-minute floor. -/
theorem horizon_eval : timeHorizonNat [exTask0, exTask1] = 100 := by
  unfold timeHorizonNat calculate_time_horizon pyInt exTask0 exTask1
  norm_num
  rfl

/-- The fixture tasks last 2 whole minutes. -/
theorem durM_ex0 : durMinutes exTask0 = 2 := by
  unfold durMinutes pyInt exTask0
  norm_num

/-- C3 (amended): `MILPScheduler._create_milp_model` contains the
single-assignment constraint `sum_j x[i,j,t] <= 1` for every task `i` and
every slot `t` of the horizon; `SimpleMILPScheduler.schedule` adds it exactly
for the slots `t <= T - duration(i)` (duration in whole minutes), and its
single-assignment block is part of the constraint list it builds. -/
theorem single_assignment_constraint_coverage :
    (∀ (tasks : List Task) (robots : List Resource) (T i t : ℕ) (ti : Task),
        tasks[i]? = some ti → t < T →
        singleAssignCon robots.length i t ∈
          create_milp_model_constraints tasks robots T)
    ∧ (∀ (tasks : List Task) (robots : List Resource) (T i t : ℕ),
        robots.length ≠ 0 →
        (orSingleCon robots.length i t ∈ simpleSingleBlock tasks robots.length T ↔
          ∃ ti, tasks[i]? = some ti ∧ (t : ℤ) ≤ (T : ℤ) - durMinutes ti))
    ∧ (∀ (tasks : List Task) (robots : List Resource) (T : ℕ) (c : OrConstraint),
        c ∈ simpleSingleBlock tasks robots.length T →
        c ∈ simple_schedule_constraints tasks robots T) := by
  refine ⟨?_, ?_, ?_⟩
  · intro tasks robots T i t ti hi ht
    have hlen : i < tasks.length := by
      by_contra hge
      rw [List.getElem?_eq_none (by omega)] at hi
      exact Option.noConfusion hi
    simp only [create_milp_model_constraints, List.mem_append]
    refine Or.inl (Or.inl (Or.inl (Or.inl (Or.inl ?_))))
    simp only [List.mem_flatMap, List.mem_map]
    exact ⟨i, List.mem_range.mpr hlen, t, List.mem_range.mpr ht, rfl⟩
  · intro tasks robots T i t hm
    exact orSingleCon_mem_simpleSingleBlock_iff hm
  · intro tasks robots T c hc
    simp only [simple_schedule_constraints, List.mem_append]
    exact Or.inl (Or.inl (Or.inl (Or.inl hc)))

/-- C3 (counterexample to the claim as stated): with two 2-minute tasks and
one robot, `SimpleMILPScheduler.schedule` computes a 100-slot horizon but its
constraint list has no single-assignment constraint for task 0 at slot 99,
a slot of the horizon. -/
theorem simple_single_assignment_missing_at_late_slot :
    99 < timeHorizonNat [exTask0, exTask1] ∧
    orSingleCon 1 0 99 ∉
      simple_schedule_constraints [exTask0, exTask1] [exRobot]
        (timeHorizonNat [exTask0, exTask1]) := by
  rw [horizon_eval]
  refine ⟨by omega, ?_⟩
  intro h
  simp only [simple_schedule_constraints, List.mem_append] at h
  rcases h with ((((h | h) | h) | h) | h)
  · have h2 : orSingleCon 1 0 99 ∈ simpleSingleBlock [exTask0, exTask1] 1 100 := by
      simpa using h
    rw [orSingleCon_mem_simpleSingleBlock_iff (by norm_num)] at h2
    obtain ⟨ti, hti, hle⟩ := h2
    simp only [List.getElem?_cons_zero, Option.some.injEq] at hti
    rw [← hti] at hle
    rw [durM_ex0] at hle
    omega
  · simp [orSingleCon, orDurationCon, List.range_succ_eq_map] at h
  · simp [orSingleCon, orCapacityCon, exRobot] at h
  · simp [orSingleCon, orMakespanCon, List.range_succ_eq_map] at h
  · simp [List.enum_cons, List.enumFrom_cons, exTask0, exTask1] at h

/-- A second robot resource, for decode tie-breaking scenarios. -/
def exRobot2 : Resource := ⟨"r1", ResourceType.robot, 2⟩

/-- A solved assignment with candidate pairs (robot 0, slot 1),
(robot 1, slot 0) and (robot 1, slot 1): the decoder must pick robot 0
first, then the earliest slot. -/
def exSol : ℕ → ℕ → ℕ → ℚ := fun _ j t => if j = 1 ∨ t = 1 then 1 else 0

/-- C2: `_extract_ortools_solution` is deterministic — equal solved variable
values give equal `ScheduledTask` sequences — and the (robot, slot) pair it
decodes for a task is the lexicographic minimum of all candidate pairs whose
solved value clears the 0.5 threshold: robot index ascending first, slot
ascending second. -/
theorem extract_solution_deterministic_lex_min :
    ∀ (sol sol2 : ℕ → ℕ → ℕ → ℚ) (tasks : List Task) (robots : List Resource)
      (T : ℕ), (∀ i j t, sol i j t = sol2 i j t) →
      extract_ortools_solution sol tasks robots T =
        extract_ortools_solution sol2 tasks robots T
      ∧ (∀ i j t, findAssignment sol i robots.length T = some (j, t) →
          1 / 2 < sol i j t ∧
          ∀ j' t', j' < robots.length → t' < T → 1 / 2 < sol i j' t' →
            j < j' ∨ (j = j' ∧ t ≤ t')) := by
  intro sol sol2 tasks robots T h
  constructor
  · have hs : sol = sol2 := funext fun i => funext fun j => funext fun t => h i j t
    rw [hs]
  · intro i j t hfa
    unfold findAssignment at hfa
    obtain ⟨j0, hj0m, hj0, hmin⟩ := range_findSome?_eq_some hfa
    cases hf : (List.range T).find? (fun t2 => decide ((1 : ℚ) / 2 < sol i j0 t2)) with
    | none => rw [hf] at hj0; simp at hj0
    | some t0 =>
      rw [hf] at hj0
      simp only [Option.map_some', Option.some.injEq, Prod.mk.injEq] at hj0
      obtain ⟨rfl, rfl⟩ := hj0
      obtain ⟨hp, htT, hfirst⟩ := range_find?_eq_some hf
      refine ⟨of_decide_eq_true hp, ?_⟩
      intro j' t' hj' ht' hgt
      by_cases hjj : j' < j0
      · exfalso
        have hnone := hmin j' hjj
        cases hf2 : (List.range T).find? (fun t2 => decide ((1 : ℚ) / 2 < sol i j' t2)) with
        | some t2 => rw [hf2] at hnone; simp at hnone
        | none =>
          rw [List.find?_eq_none] at hf2
          exact absurd (decide_eq_true hgt) (by simpa using hf2 t' (List.mem_range.mpr ht'))
      · by_cases hjeq : j0 = j'
        · subst hjeq
          refine Or.inr ⟨rfl, ?_⟩
          by_contra hlt
          have := hfirst t' (by omega)
          rw [decide_eq_false_iff_not] at this
          exact this hgt
        · exact Or.inl (by omega)

/-- C2 (witness): the tie-break theorem applied to a concrete solved
assignment over one task, two robots and two slots with set pairs (0,1),
(1,0) and (1,1). -/
theorem extract_solution_deterministic_lex_min_witness :
    extract_ortools_solution exSol [exTask0] [exRobot, exRobot2] 2 =
      extract_ortools_solution exSol [exTask0] [exRobot, exRobot2] 2
    ∧ (∀ i j t, findAssignment exSol i [exRobot, exRobot2].length 2 = some (j, t) →
        1 / 2 < exSol i j t ∧
        ∀ j' t', j' < [exRobot, exRobot2].length → t' < 2 → 1 / 2 < exSol i j' t' →
          j < j' ∨ (j = j' ∧ t ≤ t')) :=
  extract_solution_deterministic_lex_min exSol exSol [exTask0] [exRobot, exRobot2] 2
    (fun _ _ _ => rfl)

/-- The scheduled-task record decoded for `exTask0` from an all-ones solved
assignment over one robot and one slot. -/
def exSched : SchedTask := ⟨"t0", "r0", 0, 2, 2, [("r0", 1)]⟩

/-- C9: every record produced by `_extract_ortools_solution` belongs to some
input task, and its end timestamp minus its start timestamp equals that
task's duration exactly (the code sets `end = start + task.duration`). -/
theorem extract_solution_duration_linkage :
    ∀ (sol : ℕ → ℕ → ℕ → ℚ) (tasks : List Task) (robots : List Resource)
      (T : ℕ) (st : SchedTask),
      st ∈ extract_ortools_solution sol tasks robots T →
      ∃ task ∈ tasks, st.task_id = task.id ∧
        st.end_time - st.start_time = task.durationSec / 60 := by
  intro sol tasks robots T st hst
  simp only [extract_ortools_solution, List.mem_filterMap] at hst
  obtain ⟨p, hp, hbind⟩ := hst
  cases hfa : findAssignment sol p.1 robots.length T with
  | none => rw [hfa] at hbind; simp at hbind
  | some jt =>
    rw [hfa] at hbind
    simp only [Option.some_bind] at hbind
    cases hrob : robots.get? jt.1 with
    | none => rw [hrob] at hbind; simp at hbind
    | some robot =>
      rw [hrob] at hbind
      simp only [Option.map_some', Option.some.injEq] at hbind
      have hmem : p.2 ∈ tasks := by
        rw [List.mem_enum_iff_getElem?] at hp
        exact List.getElem?_mem hp
      refine ⟨p.2, hmem, ?_, ?_⟩
      · rw [← hbind]
      · rw [← hbind]
        simp

/-- C9 (witness): the duration-linkage theorem applied to the record decoded
from an all-ones solved assignment: its end minus start is the 2-minute
duration of `exTask0`. -/
theorem extract_solution_duration_linkage_witness :
    ∃ task ∈ [exTask0], exSched.task_id = task.id ∧
      exSched.end_time - exSched.start_time = task.durationSec / 60 :=
  extract_solution_duration_linkage (fun _ _ _ => 1) [exTask0] [exRobot] 1 exSched (by
    norm_num [extract_ortools_solution, findAssignment, exTask0, exRobot, exSched,
      List.range_succ, List.enum_cons])

/-- The overlap/capacity test `validate_schedule` runs on one adjacent pair
of usage entries fails (is `false`) exactly when the intervals overlap, the
resource id resolves, and the two amounts together exceed its capacity. -/
theorem badPair_check {lookup : String → Option Resource} {rid : String} {u v : Usage} :
    ((if v.start < u.stop then
        (match lookup rid with
         | some r => decide (u.amount + v.amount ≤ r.capacity)
         | none => true)
      else true) = false) ↔
      (v.start < u.stop ∧ ∃ r, lookup rid = some r ∧ r.capacity < u.amount + v.amount) := by
  by_cases hov : v.start < u.stop
  · rw [if_pos hov]
    cases hl : lookup rid with
    | none => simp [hov]
    | some r =>
      simp only [decide_eq_false_iff_not, not_le]
      constructor
      · intro hgt
        exact ⟨hov, r, rfl, hgt⟩
      · rintro ⟨-, r2, hr2, hgt⟩
        injection hr2 with he
        rw [he]
        exact hgt
  · rw [if_neg hov]
    simp [hov]

/-- The adjacent-pair scan returns `false` exactly when some index `i` holds
an overlapping, over-capacity pair of consecutive entries. -/
theorem pairsOk_eq_false_iff (lookup : String → Option Resource) (rid : String) :
    ∀ l : List Usage, pairsOk lookup rid l = false ↔
      ∃ i u v, l[i]? = some u ∧ l[i + 1]? = some v ∧ v.start < u.stop ∧
        ∃ r, lookup rid = some r ∧ r.capacity < u.amount + v.amount := by
  intro l
  induction l with
  | nil => simp [pairsOk]
  | cons u l ih =>
    cases l with
    | nil => simp [pairsOk]
    | cons v rest =>
      rw [show pairsOk lookup rid (u :: v :: rest) =
          ((if v.start < u.stop then
              (match lookup rid with
               | some r => decide (u.amount + v.amount ≤ r.capacity)
               | none => true)
            else true) && pairsOk lookup rid (v :: rest)) from rfl]
      rw [Bool.and_eq_false_iff]
      constructor
      · rintro (hchk | htail)
        · obtain ⟨hov, r, hr, hgt⟩ := badPair_check.mp hchk
          exact ⟨0, u, v, rfl, by simp, hov, r, hr, hgt⟩
        · obtain ⟨i, u2, v2, h1, h2, h3, h4⟩ := ih.mp htail
          exact ⟨i + 1, u2, v2, by simpa using h1, by simpa using h2, h3, h4⟩
      · rintro ⟨i, u2, v2, h1, h2, h3, h4⟩
        cases i with
        | zero =>
          simp only [List.getElem?_cons_zero, List.getElem?_cons_succ,
            Option.some.injEq] at h1 h2
          subst h1
          subst h2
          exact Or.inl (badPair_check.mpr ⟨h3, h4⟩)
        | succ k =>
          refine Or.inr (ih.mpr ⟨k, u2, v2, by simpa using h1, by simpa using h2, h3, h4⟩)

/-- Three half-unit usages of resource `"res"` on intervals [0,10), [1,10)
and [2,10): each adjacent pair sums to 1, yet all three overlap with total
3/2. -/
def exThree : List SchedTask :=
  [⟨"a", "r", 0, 10, 1, [("res", 1/2)]⟩,
   ⟨"b", "r", 1, 10, 1, [("res", 1/2)]⟩,
   ⟨"c", "r", 2, 10, 1, [("res", 1/2)]⟩]

/-- A resource manager resolving `"res"` to a capacity of 6/5. -/
def exResLookup : String → Option Resource :=
  fun rid => if rid = "res" then some ⟨"res", ResourceType.tool, 6/5⟩ else none

/-- C4: `validate_schedule` returns `false` exactly when, in some resource's
usage list sorted by start time, two consecutive entries overlap in time and
their combined consumption exceeds that resource's resolved capacity; and in
particular the three-way overlap `exThree` (total 3/2 against capacity 6/5,
every adjacent pair within capacity) is not flagged. -/
theorem validate_schedule_adjacent_pair_iff :
    (∀ (lookup : String → Option Resource) (schedule : List SchedTask),
      validate_schedule lookup schedule = false ↔
      ∃ rid ∈ usedResourceIds schedule, ∃ i u v,
        (sortByStart (usagesFor schedule rid))[i]? = some u ∧
        (sortByStart (usagesFor schedule rid))[i + 1]? = some v ∧
        v.start < u.stop ∧
        ∃ r, lookup rid = some r ∧ r.capacity < u.amount + v.amount)
    ∧ validate_schedule exResLookup exThree = true := by
  constructor
  · intro lookup schedule
    constructor
    · intro h
      rw [validate_schedule, List.all_eq_false] at h
      obtain ⟨rid, hr, hp⟩ := h
      rw [Bool.not_eq_true, pairsOk_eq_false_iff] at hp
      exact ⟨rid, hr, hp⟩
    · rintro ⟨rid, hr, hviol⟩
      rw [validate_schedule, List.all_eq_false]
      refine ⟨rid, hr, ?_⟩
      rw [Bool.not_eq_true, pairsOk_eq_false_iff]
      exact hviol
  · norm_num [validate_schedule, exThree, exResLookup, usedResourceIds, dedupFirst,
      usagesFor, sortByStart, insertByStart, pairsOk, List.all_cons]

/-- A pair-scan with an unresolvable resource id never fails: the capacity
comparison is skipped when `get_resource` yields nothing. -/
theorem pairsOk_of_lookup_none {lookup : String → Option Resource} {rid : String}
    (h : lookup rid = none) : ∀ l : List Usage, pairsOk lookup rid l = true := by
  intro l
  induction l with
  | nil => simp [pairsOk]
  | cons u l ih =>
    cases l with
    | nil => simp [pairsOk]
    | cons v rest =>
      rw [show pairsOk lookup rid (u :: v :: rest) =
          ((if v.start < u.stop then
              (match lookup rid with
               | some r => decide (u.amount + v.amount ≤ r.capacity)
               | none => true)
            else true) && pairsOk lookup rid (v :: rest)) from rfl]
      simp [h, ih]

/-- C10: a resource id that does not resolve through the manager has its
whole capacity scan skipped — its sorted usage group always passes — and
with no resource manager at all (`get_resource` constantly `none`, as when
`resource_manager` is `None`) `validate_schedule` returns `true` for every
schedule, overlapping over-capacity usages included. -/
theorem validate_schedule_unresolvable_ids_pass :
    (∀ (lookup : String → Option Resource) (schedule : List SchedTask)
        (rid : String), lookup rid = none →
        pairsOk lookup rid (sortByStart (usagesFor schedule rid)) = true)
    ∧ (∀ schedule : List SchedTask,
        validate_schedule (fun _ => none) schedule = true) := by
  constructor
  · intro lookup schedule rid h
    exact pairsOk_of_lookup_none h _
  · intro schedule
    rw [validate_schedule, List.all_eq_true]
    intro rid hr
    exact pairsOk_of_lookup_none rfl _

/-- C10 (witness): with no resource manager the over-capacity three-way
overlap `exThree` still validates. -/
theorem validate_schedule_unresolvable_ids_pass_witness :
    validate_schedule (fun _ => none) exThree = true :=
  validate_schedule_unresolvable_ids_pass.2 exThree

/-- Dividing each summand is dividing the sum. -/
theorem list_sum_div (l : List ℚ) (c : ℚ) :
    (l.map (fun x => x / c)).sum = l.sum / c := by
  induction l with
  | nil => simp
  | cons a l ih =>
    simp only [List.map_cons, List.sum_cons, ih]
    ring

/-- C5: for tasks of non-negative durations, `_calculate_time_horizon`
returns exactly `max(floor(1.5 * total-duration-in-minutes), 100)` (the
source computes `int(total_seconds * 1.5 / 60)`, which on non-negative input
is that floor; the rational model carries the real-arithmetic value of the
Python float expression). -/
theorem calculate_time_horizon_policy :
    ∀ tasks : List Task, (∀ t ∈ tasks, 0 ≤ t.durationSec) →
      calculate_time_horizon tasks =
        max ⌊(3 / 2 : ℚ) * ((tasks.map (fun t => t.durationSec / 60)).sum)⌋ 100 := by
  intro tasks h
  have htot : 0 ≤ (tasks.map (fun t => t.durationSec)).sum := by
    apply List.sum_nonneg
    intro x hx
    obtain ⟨t, ht, rfl⟩ := List.mem_map.mp hx
    exact h t ht
  simp only [calculate_time_horizon, pyInt]
  rw [if_neg (not_lt.mpr (by positivity))]
  congr 1
  have hsum : (tasks.map (fun t => t.durationSec / 60)).sum =
      (tasks.map (fun t => t.durationSec)).sum / 60 := by
    rw [show (fun t : Task => t.durationSec / 60) =
        (fun x : ℚ => x / 60) ∘ (fun t : Task => t.durationSec) from rfl]
    rw [← List.map_map, list_sum_div]
  rw [hsum]
  congr 1
  ring

/-- C5 (witness): the horizon policy evaluated on the two 2-minute fixture
tasks (total 4 minutes, so the 100-minute floor applies). -/
theorem calculate_time_horizon_policy_witness :
    calculate_time_horizon [exTask0, exTask1] =
      max ⌊(3 / 2 : ℚ) * (([exTask0, exTask1].map (fun t => t.durationSec / 60)).sum)⌋ 100 :=
  calculate_time_horizon_policy [exTask0, exTask1] (by
    intro t ht
    simp only [List.mem_cons, List.not_mem_nil, or_false] at ht
    rcases ht with rfl | rfl <;> norm_num [exTask0, exTask1])

/-- C6: `check_task_constraints` accumulates, per constraint of the
candidate task, a named error exactly when the claimed condition holds: for
`start_after_end`, the target is absent from the scheduled list or the
candidate starts before the (first matching) target's end; for `contained`,
the target is absent or the candidate's [start, end) is not inside the
target's; the result is always the flat list of these per-constraint
errors, never an exception. -/
theorem check_task_constraints_characterization :
    ∀ (task : EnduranceTask) (scheduled : List SchedEntry) (c : TaskConstraint),
      (c.constraint_type = ConstraintType.start_after_end →
        (constraintErrors task scheduled c ≠ [] ↔
          (∀ s ∈ scheduled, s.task_id ≠ c.target_task_id) ∨
          ∃ tgt, findTarget scheduled c.target_task_id = some tgt ∧
            task.start_time < tgt.end_time))
      ∧ (c.constraint_type = ConstraintType.contained →
        (constraintErrors task scheduled c ≠ [] ↔
          (∀ s ∈ scheduled, s.task_id ≠ c.target_task_id) ∨
          ∃ tgt, findTarget scheduled c.target_task_id = some tgt ∧
            ¬(tgt.start_time ≤ task.start_time ∧ task.end_time ≤ tgt.end_time)))
      ∧ check_task_constraints task scheduled =
          task.task_constraints.flatMap (constraintErrors task scheduled) := by
  intro task scheduled c
  have habsent : findTarget scheduled c.target_task_id = none ↔
      ∀ s ∈ scheduled, s.task_id ≠ c.target_task_id := by
    rw [findTarget, List.find?_eq_none]
    constructor
    · intro hf s hs
      simpa using hf s hs
    · intro hf s hs
      simpa using hf s hs
  have hpresent : ∀ tgt, findTarget scheduled c.target_task_id = some tgt →
      ¬(∀ s ∈ scheduled, s.task_id ≠ c.target_task_id) := by
    intro tgt hf hall
    have hm := List.mem_of_find?_eq_some hf
    have hp := List.find?_some hf
    exact hall tgt hm (by simpa using hp)
  obtain ⟨cty, ctgt⟩ := c
  dsimp only at habsent hpresent
  cases cty
  case start_after_end =>
    refine ⟨fun _ => ?_, fun hty => absurd hty (by simp), rfl⟩
    rw [constraintErrors]
    dsimp only
    cases hf : findTarget scheduled ctgt with
    | none =>
      exact iff_of_true (by simp) (Or.inl (habsent.mp hf))
    | some tgt =>
      dsimp only
      by_cases hlt : task.start_time < tgt.end_time
      · rw [if_pos hlt]
        exact iff_of_true (by simp) (Or.inr ⟨tgt, rfl, hlt⟩)
      · rw [if_neg hlt]
        refine iff_of_false (by simp) ?_
        rintro (hall | ⟨tgt2, htgt2, hlt2⟩)
        · exact hpresent tgt hf hall
        · injection htgt2 with he
          rw [← he] at hlt2
          exact hlt hlt2
  case contained =>
    refine ⟨fun hty => absurd hty (by simp), fun _ => ?_, rfl⟩
    rw [constraintErrors]
    dsimp only
    cases hf : findTarget scheduled ctgt with
    | none =>
      exact iff_of_true (by simp) (Or.inl (habsent.mp hf))
    | some tgt =>
      dsimp only
      by_cases hcond : task.start_time < tgt.start_time ∨ tgt.end_time < task.end_time
      · rw [if_pos hcond]
        refine iff_of_true (by simp) (Or.inr ⟨tgt, rfl, ?_⟩)
        rintro ⟨h1, h2⟩
        rcases hcond with hc | hc
        · exact absurd h1 (not_le.mpr hc)
        · exact absurd h2 (not_le.mpr hc)
      · rw [if_neg hcond]
        push_neg at hcond
        refine iff_of_false (by simp) ?_
        rintro (hall | ⟨tgt2, htgt2, hnc⟩)
        · exact hpresent tgt hf hall
        · injection htgt2 with he
          rw [← he] at hnc
          exact hnc ⟨hcond.1, hcond.2⟩


/-- C7: `validate_inputs` accumulates every violated per-task check into one
error list: for any task of the input list, each of the four task checks
that fails contributes its named error string to the returned list,
regardless of failures of other tasks or checks (nothing aborts at the
first failure). -/
theorem validate_inputs_accumulates :
    ∀ (tasks : List EnduranceTask) (resources : List EnduranceResource)
      (task : EnduranceTask), task ∈ tasks →
      (task.end_time - task.start_time < task.max_duration →
        ("Task " ++ task.id ++ " max duration exceeds time window") ∈
          validate_inputs tasks resources)
      ∧ (task.end_time ≤ task.start_time →
        ("Task " ++ task.id ++ " has invalid time window") ∈
          validate_inputs tasks resources)
      ∧ (task.max_duration < task.min_duration →
        ("Task " ++ task.id ++ " has invalid duration constraints") ∈
          validate_inputs tasks resources)
      ∧ (¬(task.min_duration ≤ task.preferred_duration ∧
            task.preferred_duration ≤ task.max_duration) →
        ("Task " ++ task.id ++ " preferred duration out of bounds") ∈
          validate_inputs tasks resources) := by
  intro tasks resources task htask
  have hsub : ∀ msg, msg ∈ taskInputErrors task → msg ∈ validate_inputs tasks resources := by
    intro msg hm
    simp only [validate_inputs, List.mem_append]
    exact Or.inl (Or.inr (List.mem_flatMap.mpr ⟨task, htask, hm⟩))
  refine ⟨fun hc => hsub _ ?_, fun hc => hsub _ ?_, fun hc => hsub _ ?_, fun hc => hsub _ ?_⟩
  · simp only [taskInputErrors, List.mem_append]
    exact Or.inr (by rw [if_pos hc]; simp)
  · simp only [taskInputErrors, List.mem_append]
    exact Or.inl (Or.inl (Or.inl (by rw [if_pos hc]; simp)))
  · simp only [taskInputErrors, List.mem_append]
    exact Or.inl (Or.inl (Or.inr (by rw [if_pos hc]; simp)))
  · simp only [taskInputErrors, List.mem_append]
    exact Or.inl (Or.inr (by rw [if_pos hc]; simp))

/-- A task violating all four admission checks: inverted window, min above
max, preferred outside bounds, max duration exceeding the window length. -/
def exBadTask : EnduranceTask := ⟨"e0", 10, 0, 5, 4, 3, [], []⟩

/-- C7 (witness): the accumulation theorem applied to `exBadTask`: all four
named errors are in the list returned for it. -/
theorem validate_inputs_accumulates_witness :
    (exBadTask.end_time - exBadTask.start_time < exBadTask.max_duration →
      ("Task " ++ exBadTask.id ++ " max duration exceeds time window") ∈
        validate_inputs [exBadTask] [])
    ∧ (exBadTask.end_time ≤ exBadTask.start_time →
      ("Task " ++ exBadTask.id ++ " has invalid time window") ∈
        validate_inputs [exBadTask] [])
    ∧ (exBadTask.max_duration < exBadTask.min_duration →
      ("Task " ++ exBadTask.id ++ " has invalid duration constraints") ∈
        validate_inputs [exBadTask] [])
    ∧ (¬(exBadTask.min_duration ≤ exBadTask.preferred_duration ∧
          exBadTask.preferred_duration ≤ exBadTask.max_duration) →
      ("Task " ++ exBadTask.id ++ " preferred duration out of bounds") ∈
        validate_inputs [exBadTask] []) :=
  validate_inputs_accumulates [exBadTask] [] exBadTask (by simp)

/-- C8: a schedule call with an empty task list or an empty resource list
returns a failed result carrying a non-empty message, for both
`SimpleMILPScheduler.schedule` and `MILPScheduler.schedule`, whatever the
solver does (total functions in the embedding: no exception escapes). -/
theorem schedule_empty_inputs_fail :
    ∀ (solve : List OrConstraint → SolverOutcome)
      (solve2 : List CvxConstraint → (ℕ → ℕ → ℕ → ℚ))
      (tasks : List Task) (resources : List Resource),
      tasks = [] ∨ resources = [] →
      ((simple_schedule solve tasks resources).status = ScheduleStatus.failed ∧
        ∃ msg, (simple_schedule solve tasks resources).message = some msg ∧ msg ≠ "")
      ∧ ((milp_schedule solve2 tasks resources).status = ScheduleStatus.failed ∧
        ∃ msg, (milp_schedule solve2 tasks resources).message = some msg ∧ msg ≠ "") := by
  intro solve solve2 tasks resources h
  rw [simple_schedule, milp_schedule, if_pos h, if_pos h]
  exact ⟨⟨rfl, "No tasks or resources provided", rfl, by decide⟩,
    ⟨rfl, "No tasks or resources provided", rfl, by decide⟩⟩

/-- C8 (witness): an empty task list against one robot fails with the
"No tasks or resources provided" message in both schedulers. -/
theorem schedule_empty_inputs_fail_witness :
    ((simple_schedule (fun _ => ⟨false, fun _ _ _ => 0, 0⟩) [] [exRobot]).status =
        ScheduleStatus.failed ∧
      ∃ msg, (simple_schedule (fun _ => ⟨false, fun _ _ _ => 0, 0⟩) [] [exRobot]).message =
          some msg ∧ msg ≠ "")
    ∧ ((milp_schedule (fun _ _ _ _ => 0) [] [exRobot]).status = ScheduleStatus.failed ∧
      ∃ msg, (milp_schedule (fun _ _ _ _ => 0) [] [exRobot]).message =
          some msg ∧ msg ≠ "") :=
  schedule_empty_inputs_fail (fun _ => ⟨false, fun _ _ _ => 0, 0⟩) (fun _ _ _ _ => 0)
    [] [exRobot] (Or.inl rfl)

end Scheduling
